import Mathlib

/-!
# Verification of the `lambdac` lambda-calculus core

This file gives a shallow embedding of `src/lambdac.py`, the untyped
lambda-calculus evaluator of the repository, and settles the specification
claims about it.

Modelling choices, faithful to the Python source:

* Python `Variable` objects are mutable and shared (e.g. `Lambda.__init__`
  stores the freshly created `BoundVariable` both as `self.arg` and, via
  `body.bind(self.arg)`, at every matching occurrence inside the body; and
  `BoundVariable.rename` mutates the object in place).  We therefore model
  variables as nodes in a heap: a `Heap` maps node ids (`Nat`) to their
  current data (`VarData`), and a term (`Tm`) refers to variable nodes by id.
  Two tree positions holding the same id model one shared Python object.
* A `FreeVariable` is a node with `bound = none`; a `BoundVariable` carries
  `bound = some L` where `L` is the id of the owning `Lambda` node
  (the Python `_bound` back-reference).
* Names are the single characters the parser produces
  (`Word(alphas, exact=1)`), modelled as `Char`.
* Exceptions (`AlphaConversionException`, `RuntimeError`, `AttributeError`)
  are modelled as explicit error results; Python's implicit `return None`
  at the end of `Lambda.call` is a distinguished outcome of its own.
-/

/-- The mutable state of one Python `Variable` object: its current `name`
and, for a `BoundVariable`, the id of the `Lambda` it is bound to
(`none` for a `FreeVariable`). -/
structure VarData where
  name : Char
  bound : Option Nat
deriving DecidableEq

/-- The heap of variable nodes: `vars` gives each node id its current data,
`next` is the next unused id (allocation counter). -/
structure Heap where
  vars : Nat → VarData
  next : Nat

/-- Read a node. -/
def Heap.get (h : Heap) (v : Nat) : VarData := h.vars v

/-- Overwrite one node in place (models mutating a Python object,
e.g. `BoundVariable.rename`). -/
def Heap.set (h : Heap) (v : Nat) (d : VarData) : Heap :=
  ⟨fun u => if u = v then d else h.vars u, h.next⟩

/-- Allocate a fresh node (models constructing a new Python `Variable`). -/
def Heap.alloc (h : Heap) (d : VarData) : Nat × Heap :=
  (h.next, ⟨fun u => if u = h.next then d else h.vars u, h.next + 1⟩)

/-- The empty heap. -/
def emptyHeap : Heap := ⟨fun _ => ⟨'a', Option.none⟩, 0⟩

/-- Allocate a `FreeVariable(name)` node (the parser's `to_variable` action). -/
def allocFV (h : Heap) (n : Char) : Nat × Heap := h.alloc ⟨n, Option.none⟩

/-- A `Term` of `lambdac.py`: a `Variable` (by heap node id), a `Lambda`
with its own id `lid`, the id `argVid` of its `arg` node, and its body,
or an `Application` of two subterms. -/
inductive Tm where
  | var (vid : Nat)
  | lam (lid : Nat) (argVid : Nat) (body : Tm)
  | app (e1 e2 : Tm)
deriving DecidableEq

/-- Python `Variable.bind(self, other)`: return `other`'s node if the names match,
else `self` — note the comparison is by name only, the bound/free status of
`self` is NOT consulted (both `FreeVariable` and `BoundVariable` inherit
this method unchanged). -/
def bindVar (h : Heap) (selfVid otherVid : Nat) : Nat :=
  if (h.get selfVid).name = (h.get otherVid).name then otherVid else selfVid

/-- Python `Term.bind`: `Variable.bind` at leaves; `Lambda.bind` recurses into the
body (leaving the lambda's own `arg` field untouched, but descending into
its body); `Application.bind` recurses into both children. -/
def bindTm (h : Heap) (t : Tm) (otherVid : Nat) : Tm :=
  match t with
  | .var v => .var (bindVar h v otherVid)
  | .lam l a b => .lam l a (bindTm h b otherVid)
  | .app e1 e2 => .app (bindTm h e1 otherVid) (bindTm h e2 otherVid)

/-- Python `Lambda.__init__(arg, body)`: allocate the lambda's id `L` and a new
`BoundVariable` node `A` (`arg.bind_to(self)`: same name as `arg`, bound to
`L`), then `self.body = body.bind(self.arg)`. -/
def mkLambda (h : Heap) (argVid : Nat) (body : Tm) : Heap × Tm :=
  let L := h.next
  let A := h.next + 1
  let h' : Heap := ⟨fun u => if u = A then ⟨(h.get argVid).name, some L⟩ else h.vars u,
                    h.next + 2⟩
  (h', .lam L A (bindTm h' body A))

/-- Python `has_freevar_named`: true iff a `FreeVariable` node with this name occurs;
`BoundVariable.has_freevar_named` is `False`, `Lambda` delegates to its body,
`Application` takes the disjunction. -/
def hasFreevarNamed (h : Heap) (t : Tm) (n : Char) : Bool :=
  match t with
  | .var v =>
    match (h.get v).bound with
    | Option.none => (h.get v).name = n
    | some _ => false
  | .lam _ _ b => hasFreevarNamed h b n
  | .app e1 e2 => hasFreevarNamed h e1 n || hasFreevarNamed h e2 n

/-- Module-level `next_var(v)`: the next letter, wrapping `z` back to `a`
(`ord('a') = 97`, `ord('z') = 122`). -/
def next_var (c : Char) : Char :=
  if c.toNat + 1 > 122 then Char.ofNat 97 else Char.ofNat (c.toNat + 1)

/-- The loop of `Lambda.next_var`: while the candidate name has a free
occurrence in the body, step to `next_var` of it; Python raises
`RuntimeError("no more variables available")` once `count > 26`, i.e. after
testing 27 candidates.  `fuel` counts the remaining allowed steps. -/
def nextVarLoop (h : Heap) (body : Tm) : Nat → Char → Option Char
  | fuel, v =>
    if hasFreevarNamed h body v then
      match fuel with
      | 0 => Option.none
      | fuel + 1 => nextVarLoop h body fuel (next_var v)
    else some v

/-- Python `Lambda.next_var(self, var)`: run the loop with the 27-test budget
(`count` starts at 0 and the raise fires when it exceeds 26). -/
def lambdaNextVar (h : Heap) (body : Tm) (v : Char) : Option Char :=
  nextVarLoop h body 26 v

/-- Python `Lambda.alpha_conversion(self, to)`: raise `AlphaConversionException`
when a free variable named `to` occurs in the body, else rename the (shared)
`arg` node in place — which, through aliasing, renames every bound
occurrence in the body at once. -/
def alphaConversion (h : Heap) (A : Nat) (body : Tm) (toName : Char) : Option Heap :=
  if hasFreevarNamed h body toName then Option.none
  else some (h.set A ⟨toName, (h.get A).bound⟩)

/-- Python `release(varname)`: a `Variable` whose name matches becomes a brand-new
`FreeVariable` object (allocation); `Application` rebuilds from released
children (left child first, as Python evaluates arguments left to right);
a `Lambda` has no `release` method, so reaching one raises
`AttributeError` (modelled as `none`). -/
def releaseTm (h : Heap) (t : Tm) (n : Char) : Option (Heap × Tm) :=
  match t with
  | .var v =>
    if (h.get v).name = n then
      let p := h.alloc ⟨(h.get v).name, Option.none⟩
      some (p.2, .var p.1)
    else some (h, .var v)
  | .app e1 e2 =>
    match releaseTm h e1 n with
    | Option.none => Option.none
    | some p1 =>
      match releaseTm p1.1 e2 n with
      | Option.none => Option.none
      | some p2 => some (p2.1, .app p1.2 p2.2)
  | .lam _ _ _ => Option.none

/-- Outcome of `Lambda.call`: a returned `Term` (with the heap as mutated),
Python's implicit `return None` falling off the end of the method (with the
heap as mutated), or an uncaught exception. -/
inductive CallResult where
  | term (h : Heap) (t : Tm)
  | none (h : Heap)
  | error

/-- Whether `Lambda.call` returned an actual term. -/
def CallResult.isTerm : CallResult → Bool
  | .term _ _ => true
  | _ => false

/-- The current name of node `v` in the heap a `call` left behind
(`none` when the call raised). -/
def CallResult.nameAt : CallResult → Nat → Option Char
  | .term h _, v => some ((h.get v).name)
  | .none h, v => some ((h.get v).name)
  | .error, _ => Option.none

/-- The heap a `call` left behind, when it did not raise. -/
def CallResult.heapOut : CallResult → Option Heap
  | .term h _ => some h
  | .none h => some h
  | .error => Option.none

/-- Lines 311–313 of `Lambda.call`: if the body has a free variable named
like the argument, pick the next available name and alpha-convert. -/
def callPrelude (h : Heap) (A : Nat) (body : Tm) (argName : Char) : Option Heap :=
  if hasFreevarNamed h body argName then
    match lambdaNextVar h body argName with
    | Option.none => Option.none
    | some nxt => alphaConversion h A body nxt
  else some h

/-- Python `Lambda.call(self, arg)` where `self` is the lambda with arg node `A`
and body `body`, and `arg` is the variable node `argVid`:

* prelude (lines 311–313): possible alpha-conversion;
* body a `BoundVariable`: return `arg`;
* body a `FreeVariable`: return the body;
* body an `Application`: if the (post-rename) body still has a free variable
  named like the argument, return `self.body.release(self.arg.name)`;
  otherwise replace `e1`/`e2` by `arg` when their `name` equals
  `self.arg.name` (reading `.name` of a non-variable child raises
  `AttributeError`) and return the body;
* body a `Lambda`: no branch matches — Python falls off the end of the
  method and returns `None`. -/
def callTm (h : Heap) (A : Nat) (body : Tm) (argVid : Nat) : CallResult :=
  match callPrelude h A body ((h.get argVid).name) with
  | Option.none => .error
  | some h1 =>
    match body with
    | .var v =>
      match (h1.get v).bound with
      | some _ => .term h1 (.var argVid)
      | Option.none => .term h1 (.var v)
    | .app e1 e2 =>
      if hasFreevarNamed h1 (.app e1 e2) ((h1.get argVid).name) then
        match releaseTm h1 (.app e1 e2) ((h1.get A).name) with
        | Option.none => .error
        | some p => .term p.1 p.2
      else
        match e1 with
        | .var v1 =>
          let e1' := if (h1.get v1).name = (h1.get A).name then Tm.var argVid else Tm.var v1
          match e2 with
          | .var v2 =>
            let e2' := if (h1.get v2).name = (h1.get A).name then Tm.var argVid else Tm.var v2
            .term h1 (.app e1' e2')
          | _ => .error
        | _ => .error
    | .lam _ _ _ => .none h1

/-- The `__repr__` printer: `FreeVariable` as `FV(<name>)`, `BoundVariable`
as `BV(<name>)`, `Lambda` as `(λ<arg.name>.<body>)`, `Application` as
`<e1> <e2>`. -/
def reprTm (h : Heap) : Tm → String
  | .var v =>
    match (h.get v).bound with
    | Option.none => "FV(" ++ (h.get v).name.toString ++ ")"
    | some _ => "BV(" ++ (h.get v).name.toString ++ ")"
  | .lam _ A b => "(λ" ++ (h.get A).name.toString ++ "." ++ reprTm h b ++ ")"
  | .app e1 e2 => reprTm h e1 ++ " " ++ reprTm h e2

/-- The parser's `to_application` action: `reduce(Application, t)` over the
flat run of atom terms the `appl` rule collected — a left fold; `reduce`
on an empty sequence raises (modelled as `none`). -/
def to_application : List Tm → Option Tm
  | [] => Option.none
  | t :: ts => some (ts.foldl Tm.app t)

/-- Whether node id `v` occurs at a variable-leaf position of the term
(a shared Python object shows up as the same id at several positions). -/
def occursVar : Tm → Nat → Bool
  | .var u, v => u = v
  | .lam _ _ b, v => occursVar b v
  | .app e1 e2, v => occursVar e1 v || occursVar e2 v

/-- All node ids mentioned by the term are below `n` (true of every term
allocated from a heap whose counter is `n`). -/
def tmIdsBelow : Tm → Nat → Bool
  | .var v, n => v < n
  | .lam l a b, n => decide (l < n) && decide (a < n) && tmIdsBelow b n
  | .app e1 e2, n => tmIdsBelow e1 n && tmIdsBelow e2 n

/-- Outcome of the (spec-modelled) evaluator. -/
inductive EvalResult where
  | ok (h : Heap) (t : Tm)
  | stuckNone
  | error

/-- The printed form of an evaluator result, when there is one. -/
def EvalResult.reprOut : EvalResult → Option String
  | .ok h t => some (reprTm h t)
  | _ => Option.none

/-- Modelled from the spec: the Evaluator of §4.4 is not present in
`src/` (only the substitution engine `Lambda.call` is); this follows the
spec's call-by-value order — a `Variable` or `Abstraction` is returned
unchanged; for an `Application`, the operator is evaluated first, and if it
is an `Abstraction` the operand is evaluated and the source's `Lambda.call`
performs the substitution (a `call` with a non-`Variable` argument raises
`AttributeError` at `arg.name`, and a `call` that returns `None` leaves the
evaluator with no term to continue with); a non-`Abstraction` operator
leaves the application stuck, rebuilt from the evaluated children.
`fuel` bounds the recursion depth. -/
def evalTm : Nat → Heap → Tm → EvalResult
  | 0, _, _ => .error
  | fuel + 1, h, t =>
    match t with
    | .var v => .ok h (.var v)
    | .lam l a b => .ok h (.lam l a b)
    | .app e1 e2 =>
      match evalTm fuel h e1 with
      | .ok h1 (.lam _ A body) =>
        match evalTm fuel h1 e2 with
        | .ok h2 (.var rv) =>
          match callTm h2 A body rv with
          | .term h3 t3 => evalTm fuel h3 t3
          | .none _ => .stuckNone
          | .error => .error
        | .ok _ _ => .error
        | .stuckNone => .stuckNone
        | .error => .error
      | .ok h1 l =>
        match evalTm fuel h1 e2 with
        | .ok h2 r => .ok h2 (.app l r)
        | .stuckNone => .stuckNone
        | .error => .error
      | .stuckNone => .stuckNone
      | .error => .error

/-- Whether the evaluator got stuck on a `call` that returned `None`. -/
def EvalResult.isStuckNone : EvalResult → Bool
  | .stuckNone => true
  | _ => false

/-! ## Concrete terms, constructed exactly as the parser's actions build them

The parser allocates one `FreeVariable` node per identifier (in textual
order, binder identifiers included), then the grammar actions fire
bottom-up: `to_application` folds atom runs, `to_lambda` calls the `Lambda`
constructor. -/

/-- Parse of `"(fn x => x) y"`, step 1: the binder identifier `x` (node 0). -/
def c8s1 : Nat × Heap := allocFV emptyHeap 'x'

/-- Step 2: the body identifier `x` (node 1). -/
def c8s2 : Nat × Heap := allocFV c8s1.2 'x'

/-- Step 3: `to_lambda` builds `Lambda(x, x)` — lambda id 2, arg node 3;
the body occurrence is rewritten to the arg node itself. -/
def lamC8 : Heap × Tm := mkLambda c8s2.2 c8s1.1 (Tm.var c8s2.1)

/-- Step 4: the operand identifier `y` (node 4). -/
def c8s3 : Nat × Heap := allocFV lamC8.1 'y'

/-- The heap after parsing `"(fn x => x) y"`. -/
def hC8 : Heap := c8s3.2

/-- The term `"(fn x => x) y"` parses to (`to_application` of the two atoms). -/
def tC8 : Tm := Tm.app lamC8.2 (Tm.var c8s3.1)

/-- Parse of `"(fn x => fn y => x y) y"`, identifiers in textual order:
binder `x` (node 0). -/
def c1s1 : Nat × Heap := allocFV emptyHeap 'x'

/-- Binder `y` (node 1). -/
def c1s2 : Nat × Heap := allocFV c1s1.2 'y'

/-- Occurrence `x` (node 2). -/
def c1s3 : Nat × Heap := allocFV c1s2.2 'x'

/-- Occurrence `y` (node 3). -/
def c1s4 : Nat × Heap := allocFV c1s3.2 'y'

/-- Action `to_lambda` on `fn y => x y`: lambda id 4, arg node 5; the `y`
occurrence in the body is rewritten to node 5. -/
def innerC1 : Heap × Tm := mkLambda c1s4.2 c1s2.1 (Tm.app (Tm.var c1s3.1) (Tm.var c1s4.1))

/-- Action `to_lambda` on the outer `fn x => ...`: lambda id 6, arg node 7; the
`x` occurrence inside the inner body is rewritten to node 7. -/
def outerC1 : Heap × Tm := mkLambda innerC1.1 c1s1.1 innerC1.2

/-- The trailing operand identifier `y` (node 8). -/
def c1s5 : Nat × Heap := allocFV outerC1.1 'y'

/-- The heap after parsing `"(fn x => fn y => x y) y"`. -/
def hC1 : Heap := c1s5.2

/-- The term `"(fn x => fn y => x y) y"` parses to. -/
def tC1 : Tm := Tm.app outerC1.2 (Tm.var c1s5.1)

/-- Construction of `Lambda(x, y)` (the constant function): binder `x`
(node 0). -/
def c2s1 : Nat × Heap := allocFV emptyHeap 'x'

/-- Free occurrence `y` (node 1). -/
def c2s2 : Nat × Heap := allocFV c2s1.2 'y'

/-- Construction `Lambda(x, y)`: lambda id 2, arg node 3; the body `FV(y)` is untouched
by `bind`. -/
def lamC2 : Heap × Tm := mkLambda c2s2.2 c2s1.1 (Tm.var c2s2.1)

/-- The argument `FreeVariable("y")` (node 4). -/
def c2s3 : Nat × Heap := allocFV lamC2.1 'y'

/-- The heap before calling `Lambda(x, y).call(y)`. -/
def hC2 : Heap := c2s3.2

/-- Construction of `fn a => fn a => a` (nested shadowing binders):
outer binder `a` (node 0). -/
def c3s1 : Nat × Heap := allocFV emptyHeap 'a'

/-- Inner binder `a` (node 1). -/
def c3s2 : Nat × Heap := allocFV c3s1.2 'a'

/-- Body occurrence `a` (node 2). -/
def c3s3 : Nat × Heap := allocFV c3s2.2 'a'

/-- The inner `Lambda(a, a)`: lambda id 3, arg node 4; the body occurrence
is rewritten to node 4. -/
def innerC3 : Heap × Tm := mkLambda c3s3.2 c3s2.1 (Tm.var c3s3.1)

/-- The outer `Lambda(a, <inner>)`: lambda id 5, arg node 6; its `bind`
descends into the inner lambda's body. -/
def outerC3 : Heap × Tm := mkLambda innerC3.1 c3s1.1 innerC3.2

/-- The heap after constructing the nested lambdas. -/
def hC3 : Heap := outerC3.1

/-- Construction of `Lambda(x, Application(x, y))` (the `Lambda.call`
doctest term): binder `x` (node 0). -/
def c5s1 : Nat × Heap := allocFV emptyHeap 'x'

/-- Occurrence `x` (node 1). -/
def c5s2 : Nat × Heap := allocFV c5s1.2 'x'

/-- Occurrence `y` (node 2). -/
def c5s3 : Nat × Heap := allocFV c5s2.2 'y'

/-- Construction `Lambda(x, Application(x, y))`: lambda id 3, arg node 4. -/
def lamC5 : Heap × Tm := mkLambda c5s3.2 c5s1.1 (Tm.app (Tm.var c5s2.1) (Tm.var c5s3.1))

/-- The argument `FreeVariable("y")` (node 5). -/
def c5s4 : Nat × Heap := allocFV lamC5.1 'y'

/-- The heap before `Lambda(x, Application(x, y)).call(y)`. -/
def hC5 : Heap := c5s4.2

/-- The heap `Lambda(x, Application(x, y)).call(y)` leaves behind: the
binder node 4 renamed to `z` in place, plus the fresh `FreeVariable("z")`
the `release` path allocates. -/
def hC5after : Heap :=
  ((hC5.set 4 ⟨'z', (hC5.get 4).bound⟩).alloc ⟨'z', Option.none⟩).2

/-- The renaming alphabet `a`..`z` the fresh-name supply walks. -/
def alphabet : List Char :=
  ['a', 'b', 'c', 'd', 'e', 'f', 'g', 'h', 'i', 'j', 'k', 'l', 'm',
   'n', 'o', 'p', 'q', 'r', 's', 't', 'u', 'v', 'w', 'x', 'y', 'z']

/-- A heap whose first 26 nodes are free variables named `a`..`z`. -/
def alphaHeap : Heap := ⟨fun v => ⟨Char.ofNat (97 + v), Option.none⟩, 26⟩

/-- A body in which every letter of the alphabet occurs free
(nodes 0..25 of `alphaHeap` applied in a row). -/
def tAll : Tm := (List.range 26).foldl (fun acc i => Tm.app acc (Tm.var i)) (Tm.var 0)

/-! ## Helper lemmas -/

/-- A name returned by the `Lambda.next_var` loop never has a free
occurrence in the body: the loop only exits on a name that fails the
`has_freevar_named` test. -/
theorem nextVarLoop_not_free (h : Heap) (b : Tm) :
    ∀ fuel v c, nextVarLoop h b fuel v = some c → hasFreevarNamed h b c = false := by
  intro fuel
  induction fuel with
  | zero =>
    intro v c hvc
    unfold nextVarLoop at hvc
    by_cases hf : hasFreevarNamed h b v
    · simp [hf] at hvc
    · simp [hf] at hvc
      subst hvc
      simpa using hf
  | succ n ih =>
    intro v c hvc
    unfold nextVarLoop at hvc
    by_cases hf : hasFreevarNamed h b v
    · simp [hf] at hvc
      exact ih _ _ hvc
    · simp [hf] at hvc
      subst hvc
      simpa using hf

/-- Stepping with `next_var` never leaves the alphabet. -/
theorem next_var_mem_alphabet : ∀ c ∈ alphabet, next_var c ∈ alphabet := by decide

/-- When every letter of the alphabet has a free occurrence in the body,
the `Lambda.next_var` loop runs out of budget and raises, whatever its
(in-alphabet) starting point. -/
theorem nextVarLoop_exhaust (h : Heap) (b : Tm)
    (hall : ∀ c ∈ alphabet, hasFreevarNamed h b c = true) :
    ∀ fuel v, v ∈ alphabet → nextVarLoop h b fuel v = Option.none := by
  intro fuel
  induction fuel with
  | zero =>
    intro v hv
    unfold nextVarLoop
    simp [hall v hv]
  | succ n ih =>
    intro v hv
    unfold nextVarLoop
    simp [hall v hv]
    exact ih _ (next_var_mem_alphabet v hv)

/-! ## Claim theorems -/

/-- C1: evidence of the code bug.  For the parsed term of
`"(fn x => fn y => x y) y"` the claim demands a result printing
`(λz.y z)` for fresh `z`; instead `Lambda.call` on the outer abstraction —
whose body is itself a `Lambda` — matches none of its body-shape branches
and returns `None`, so evaluation produces no result term at all (and in
particular nothing printing `(λz.y z)`, nor `(λy.y y)`). -/
theorem c1_capture_avoidance_produces_no_term :
    reprTm hC1 tC1 = "(λx.(λy.BV(x) BV(y))) FV(y)" ∧
    (callTm hC1 7 innerC1.2 8).isTerm = false ∧
    evalTm 10 hC1 tC1 = EvalResult.stuckNone ∧
    (evalTm 10 hC1 tC1).reprOut = Option.none :=
  ⟨rfl, rfl, rfl, rfl⟩

/-- C6: fresh-name selection walks the alphabet with wraparound
(`next_var 'z' = 'a'`), skipping taken names — a name it returns never has
a free occurrence in the body, so a taken name is never silently reused —
and when every letter of the alphabet is taken it raises
(`RuntimeError`, modelled as `none`) instead of returning a name. -/
theorem c6_alphabet_exhaustion_raises :
    next_var 'z' = 'a' ∧
    (∀ (h : Heap) (b : Tm) (v c : Char),
      lambdaNextVar h b v = some c → hasFreevarNamed h b c = false) ∧
    (∀ (h : Heap) (b : Tm) (v : Char), v ∈ alphabet →
      (∀ c ∈ alphabet, hasFreevarNamed h b c = true) →
      lambdaNextVar h b v = Option.none) := by
  refine ⟨by decide, fun h b v c hvc => nextVarLoop_not_free h b 26 v c hvc,
    fun h b v hv hall => nextVarLoop_exhaust h b hall 26 v hv⟩

/-- Witness for C6 at concrete inputs: over `alphaHeap`, whose nodes 0–25
are free variables `a`..`z`, the term `tAll` mentions every letter, and
`Lambda.next_var` starting at `'a'` raises; over the single free variable
`a` the loop skips the taken `'a'` and the returned `'b'` is not taken. -/
theorem c6_alphabet_exhaustion_raises_witness :
    lambdaNextVar alphaHeap tAll 'a' = Option.none ∧
    hasFreevarNamed alphaHeap (Tm.var 0) 'b' = false :=
  ⟨c6_alphabet_exhaustion_raises.2.2 alphaHeap tAll 'a' (by decide) (by decide),
   c6_alphabet_exhaustion_raises.2.1 alphaHeap (Tm.var 0) 'a' 'b' (by decide)⟩

/-- C7: the parser's `to_application` action folds a run of atoms
left-associatively: appending one more atom wraps the previous result as
the left child, and on the four atoms of `"a b c d"` the result is
`Application(Application(Application(a, b), c), d)`. -/
theorem c7_application_left_associative :
    (∀ (l : List Tm) (x t : Tm), to_application l = some t →
      to_application (l ++ [x]) = some (Tm.app t x)) ∧
    (∀ a b c d : Tm, to_application [a, b, c, d] =
      some (Tm.app (Tm.app (Tm.app a b) c) d)) := by
  constructor
  · intro l x t hl
    cases l with
    | nil => simp [to_application] at hl
    | cons y ys =>
      simp [to_application] at hl ⊢
      simp [← hl, List.foldl_append]
  · intro a b c d
    rfl

/-- Witness for C7 at a concrete input: extending the two-atom run
`[a, b]` (here variable nodes 0 and 1) by a third atom nests it as the left
child. -/
theorem c7_application_left_associative_witness :
    to_application [Tm.var 0, Tm.var 1, Tm.var 2] =
      some (Tm.app (Tm.app (Tm.var 0) (Tm.var 1)) (Tm.var 2)) :=
  c7_application_left_associative.1 [Tm.var 0, Tm.var 1] (Tm.var 2)
    (Tm.app (Tm.var 0) (Tm.var 1)) rfl

/-- C8 counterexample: evaluating the parsed `"(fn x => x) y"` does produce
the free variable `y`, but the printer renders it `FV(y)`, not `y` as the
claim states. -/
theorem c8_counterexample_identity_printing :
    (evalTm 10 hC8 tC8).reprOut = some "FV(y)" ∧ "FV(y)" ≠ "y" :=
  ⟨rfl, by decide⟩

/-- C8 amended: evaluating the parsed `"(fn x => x) y"` returns the operand
`FreeVariable("y")` (node 4) with the heap untouched, and it prints as
`FV(y)`. -/
theorem c8_identity_reduction_amended :
    evalTm 10 hC8 tC8 = EvalResult.ok hC8 (Tm.var 4) ∧
    (hC8.get 4).name = 'y' ∧
    (hC8.get 4).bound = Option.none ∧
    reprTm hC8 (Tm.var 4) = "FV(y)" :=
  ⟨rfl, rfl, rfl, rfl⟩

/-- C9 counterexample: a `Variable` is not rendered as exactly its name —
the free variable `y` (node 4 of the `"(fn x => x) y"` parse) has name `y`
yet renders as `FV(y)`. -/
theorem c9_counterexample_variable_rendering :
    (hC8.get 4).name.toString = "y" ∧
    reprTm hC8 (Tm.var 4) = "FV(y)" ∧
    "FV(y)" ≠ "y" :=
  ⟨rfl, rfl, by decide⟩

/-- C9 amended: the printer renders a free `Variable` as `FV(<name>)` and a
bound one as `BV(<name>)`; an `Abstraction` as `(λ<name>.<body>)`; an
`Application` as `<left> <right>` with no added parentheses. -/
theorem c9_printer_format_amended :
    ∀ (h : Heap) (l A : Nat) (b e1 e2 : Tm) (v : Nat),
      reprTm h (Tm.lam l A b) =
        "(λ" ++ (h.get A).name.toString ++ "." ++ reprTm h b ++ ")" ∧
      reprTm h (Tm.app e1 e2) = reprTm h e1 ++ " " ++ reprTm h e2 ∧
      ((h.get v).bound = Option.none →
        reprTm h (Tm.var v) = "FV(" ++ (h.get v).name.toString ++ ")") ∧
      (∀ L, (h.get v).bound = some L →
        reprTm h (Tm.var v) = "BV(" ++ (h.get v).name.toString ++ ")") := by
  intro h l A b e1 e2 v
  refine ⟨rfl, rfl, fun hb => ?_, fun L hb => ?_⟩ <;> simp [reprTm, hb]

/-- Witness for C9 (amended) at concrete nodes of the `"(fn x => x) y"`
parse: node 4 is free, node 3 is the binder node bound to lambda 2. -/
theorem c9_printer_format_amended_witness :
    reprTm hC8 (Tm.var 4) = "FV(" ++ (hC8.get 4).name.toString ++ ")" ∧
    reprTm hC8 (Tm.var 3) = "BV(" ++ (hC8.get 3).name.toString ++ ")" :=
  ⟨(c9_printer_format_amended hC8 0 0 (Tm.var 0) (Tm.var 0) (Tm.var 0) 4).2.2.1 rfl,
   (c9_printer_format_amended hC8 0 0 (Tm.var 0) (Tm.var 0) (Tm.var 0) 3).2.2.2 2 rfl⟩

/-- C10: when an abstraction's body is itself a `Lambda` (a curried
function), `Lambda.call` matches none of its body-shape branches and never
returns a term; when additionally no alpha-conversion fires (the body has no
free variable named like the argument), it returns exactly `None` with the
heap untouched. -/
theorem c10_call_on_curried_body_returns_none :
    ∀ (h : Heap) (A L2 A2 : Nat) (b2 : Tm) (argVid : Nat),
      (callTm h A (Tm.lam L2 A2 b2) argVid).isTerm = false ∧
      (hasFreevarNamed h (Tm.lam L2 A2 b2) ((h.get argVid).name) = false →
        callTm h A (Tm.lam L2 A2 b2) argVid = CallResult.none h) := by
  intro h A L2 A2 b2 argVid
  constructor
  · unfold callTm
    rcases hp : callPrelude h A (Tm.lam L2 A2 b2) ((h.get argVid).name) with _ | h1 <;>
      simp [hp, CallResult.isTerm]
  · intro hf
    unfold callTm callPrelude
    simp [hf]

/-- Witness for C10 at the parse of `"(fn x => fn y => x y) y"`: the outer
abstraction (arg node 7) has the inner `Lambda` as body, its body has no
free `y`, and the call returns `None`. -/
theorem c10_call_on_curried_body_returns_none_witness :
    callTm hC1 7 (Tm.lam 4 5 (Tm.app (Tm.var 7) (Tm.var 5))) 8 = CallResult.none hC1 :=
  (c10_call_on_curried_body_returns_none hC1 7 4 5
    (Tm.app (Tm.var 7) (Tm.var 5)) 8).2 (by decide)

/-- C2 counterexample: calling `Lambda(x, y)` (binder node 3, named `x`)
with the value term `FreeVariable("y")` (node 4): the value term contains
no free variable named `x` — the binder's name — yet the call renames the
binder to `z`.  The claim's "if and only if" trigger condition is therefore
not the one the code uses: the code keys on the *body* containing a free
variable named like the *argument*. -/
theorem c2_counterexample_alpha_trigger :
    (hC2.get 3).name = 'x' ∧
    hasFreevarNamed hC2 (Tm.var 4) 'x' = false ∧
    (callTm hC2 3 (Tm.var 1) 4).nameAt 3 = some 'z' :=
  ⟨rfl, rfl, rfl⟩

/-- C2 amended: the alpha-conversion prelude of `Lambda.call` fires iff the
abstraction's *body* contains a free variable whose name equals the
*argument variable's* name; when it fires, the binder node (and with it,
through aliasing, every bound occurrence in the body) is renamed in place
to a name with no free occurrence in the body; otherwise the heap is left
untouched. -/
theorem c2_alpha_trigger_amended :
    ∀ (h : Heap) (A : Nat) (body : Tm) (n : Char) (h1 : Heap),
      callPrelude h A body n = some h1 →
      (hasFreevarNamed h body n = false → h1 = h) ∧
      (hasFreevarNamed h body n = true →
        ∃ c, hasFreevarNamed h body c = false ∧
          h1 = h.set A ⟨c, (h.get A).bound⟩) := by
  intro h A body n h1 hcall
  constructor
  · intro hf
    unfold callPrelude at hcall
    simp [hf] at hcall
    exact hcall.symm
  · intro hf
    unfold callPrelude at hcall
    simp [hf] at hcall
    rcases hnv : lambdaNextVar h body n with _ | c
    · rw [hnv] at hcall
      simp at hcall
    · rw [hnv] at hcall
      have hnc : hasFreevarNamed h body c = false :=
        nextVarLoop_not_free h body 26 n c hnv
      unfold alphaConversion at hcall
      simp [hnc] at hcall
      exact ⟨c, hnc, hcall.symm⟩

/-- Witness for C2 (amended) at the `Lambda(x, y).call(y)` data: the body
`FV(y)` (node 1) has a free `y`, so the prelude rewrites the heap to the
binder node 3 renamed — to a letter with no free occurrence in the body. -/
theorem c2_alpha_trigger_amended_witness :
    ∃ c, hasFreevarNamed hC2 (Tm.var 1) c = false ∧
      hC2.set 3 ⟨'z', (hC2.get 3).bound⟩ = hC2.set 3 ⟨c, (hC2.get 3).bound⟩ :=
  (c2_alpha_trigger_amended hC2 3 (Tm.var 1) 'y'
    (hC2.set 3 ⟨'z', (hC2.get 3).bound⟩) rfl).2 rfl

/-- C3 counterexample: constructing `fn a => fn a => a` — the outer
abstraction's `bind` descends through the inner `Lambda` (node 3, binder
node 4) and rewrites the occurrence that was already bound to the inner
binder: the inner body ends up holding node 6, the *outer* binder (bound to
lambda 5), and the inner binder node 4 no longer occurs in it at all. -/
theorem c3_counterexample_shadowing :
    outerC3.2 = Tm.lam 5 6 (Tm.lam 3 4 (Tm.var 6)) ∧
    (hC3.get 6).bound = some 5 ∧
    (hC3.get 4).bound = some 3 ∧
    occursVar (Tm.lam 3 4 (Tm.var 6)) 4 = false :=
  ⟨rfl, rfl, rfl, rfl⟩

/-- C3 amended: an outer abstraction's `bind` rewrites *every* variable
occurrence whose name matches the new binder's, bound or not: after
`bind`, no node other than the new binder itself still occurs under a
matching name — in particular an occurrence bound to an inner same-named
binder does not stay bound to it, it is re-bound to the outer binder. -/
theorem c3_bind_rebinds_inner_amended :
    ∀ (h : Heap) (t : Tm) (A v : Nat),
      (h.get v).name = (h.get A).name → v ≠ A →
      occursVar (bindTm h t A) v = false := by
  intro h t A v hname hne
  induction t with
  | var u =>
    by_cases hu : (h.get u).name = (h.get A).name
    · simp [bindTm, bindVar, hu, occursVar]
      exact fun heq => hne heq.symm
    · simp [bindTm, bindVar, hu, occursVar]
      intro heq
      rw [heq] at hu
      exact hu hname
  | lam l a b ih => simpa [bindTm, occursVar] using ih
  | app e1 e2 ih1 ih2 => simp [bindTm, occursVar, ih1, ih2]

/-- Witness for C3 (amended) at the `fn a => fn a => a` data: node 4 (the
inner binder, named `a`) and node 6 (the outer binder, also `a`) — binding
the inner body to node 6 leaves no occurrence of node 4. -/
theorem c3_bind_rebinds_inner_amended_witness :
    occursVar (bindTm hC3 (Tm.var 4) 6) 4 = false :=
  c3_bind_rebinds_inner_amended hC3 (Tm.var 4) 6 4 (by decide) (by decide)

/-- Unfolding equation for `mkLambda`. -/
theorem mkLambda_eq (h : Heap) (argVid : Nat) (body : Tm) :
    mkLambda h argVid body =
      (⟨fun u => if u = h.next + 1 then ⟨(h.get argVid).name, some h.next⟩ else h.vars u,
        h.next + 2⟩,
       Tm.lam h.next (h.next + 1)
         (bindTm
           ⟨fun u => if u = h.next + 1 then ⟨(h.get argVid).name, some h.next⟩ else h.vars u,
            h.next + 2⟩
           body (h.next + 1))) := rfl

/-- Free-variable lookup only depends on the nodes the term mentions: two
heaps agreeing below a bound that covers the term's ids agree on
`has_freevar_named`. -/
theorem hasFreevarNamed_congr :
    ∀ (t : Tm) (h h' : Heap) (n : Char) (m : Nat),
      tmIdsBelow t m = true → (∀ v, v < m → h'.get v = h.get v) →
      hasFreevarNamed h' t n = hasFreevarNamed h t n := by
  intro t
  induction t with
  | var u =>
    intro h h' n m hb hagree
    simp only [tmIdsBelow, decide_eq_true_eq] at hb
    simp [hasFreevarNamed, hagree u hb]
  | lam l a b ih =>
    intro h h' n m hb hagree
    simp only [tmIdsBelow, Bool.and_eq_true, decide_eq_true_eq] at hb
    simpa [hasFreevarNamed] using ih h h' n m hb.2 hagree
  | app e1 e2 ih1 ih2 =>
    intro h h' n m hb hagree
    simp only [tmIdsBelow, Bool.and_eq_true] at hb
    simp [hasFreevarNamed, ih1 h h' n m hb.1 hagree, ih2 h h' n m hb.2 hagree]

/-- Whenever a free variable named like node `A` occurs in a term, `bind`
rewrites some occurrence to node `A` itself: the bound node occurs in the
resulting body. -/
theorem bindTm_occurs_of_free :
    ∀ (t : Tm) (h : Heap) (A : Nat),
      hasFreevarNamed h t ((h.get A).name) = true →
      occursVar (bindTm h t A) A = true := by
  intro t
  induction t with
  | var u =>
    intro h A hf
    rcases hb : (h.get u).bound with _ | L
    · simp only [hasFreevarNamed, hb, decide_eq_true_eq] at hf
      simp [bindTm, bindVar, hf, occursVar]
    · simp [hasFreevarNamed, hb] at hf
  | lam l a b ih =>
    intro h A hf
    simp only [hasFreevarNamed] at hf
    simpa [bindTm, occursVar] using ih h A hf
  | app e1 e2 ih1 ih2 =>
    intro h A hf
    simp only [hasFreevarNamed, Bool.or_eq_true] at hf
    rcases hf with hf | hf
    · simp [bindTm, occursVar, ih1 h A hf]
    · simp [bindTm, occursVar, ih2 h A hf]

/-- C4 counterexample: in the constructed `Lambda(x, x)` (lambda 2) the
binder declaration and the bound occurrence in the body are the SAME node:
node 3 is both the abstraction's `arg` and the body leaf, so the term is
not a tree of distinct nodes — and mutating that one node renames both the
binder and the occurrence at once. -/
theorem c4_counterexample_binder_shared :
    lamC8.2 = Tm.lam 2 3 (Tm.var 3) ∧
    occursVar (Tm.var 3) 3 = true ∧
    reprTm lamC8.1 lamC8.2 = "(λx.BV(x))" ∧
    reprTm (lamC8.1.set 3 ⟨'w', some 2⟩) lamC8.2 = "(λw.BV(w))" :=
  ⟨rfl, rfl, rfl, rfl⟩

/-- C4 amended: terms are deliberately NOT node-disjoint trees at bound
variables — constructing an abstraction aliases the freshly created binder
node (id `h.next + 1`) into the body: whenever the body has a free variable
named like the argument, the binder node itself occurs as a leaf of the
constructed body (which is what lets `alpha_conversion`'s in-place rename
reach every occurrence). -/
theorem c4_binder_aliasing_amended :
    ∀ (h : Heap) (argVid : Nat) (body : Tm),
      tmIdsBelow body h.next = true →
      hasFreevarNamed h body ((h.get argVid).name) = true →
      occursVar (mkLambda h argVid body).2 (h.next + 1) = true := by
  intro h argVid body hb hf
  rw [mkLambda_eq]
  show occursVar
    (bindTm
      ⟨fun u => if u = h.next + 1 then ⟨(h.get argVid).name, some h.next⟩ else h.vars u,
       h.next + 2⟩
      body (h.next + 1)) (h.next + 1) = true
  apply bindTm_occurs_of_free
  have hA : (Heap.get
      ⟨fun u => if u = h.next + 1 then ⟨(h.get argVid).name, some h.next⟩ else h.vars u,
       h.next + 2⟩ (h.next + 1)).name = (h.get argVid).name := by
    simp [Heap.get]
  rw [hA]
  rw [hasFreevarNamed_congr body h _ _ h.next hb ?_]
  · exact hf
  · intro v hv
    have hne : v ≠ h.next + 1 := by omega
    simp [Heap.get, hne]

/-- Witness for C4 (amended) at the `Lambda(x, x)` data: the body `FV(x)`
(node 1) has a free `x`, so the new binder node 3 occurs in the
constructed body. -/
theorem c4_binder_aliasing_amended_witness :
    occursVar (mkLambda c8s2.2 0 (Tm.var 1)).2 (c8s2.2.next + 1) = true :=
  c4_binder_aliasing_amended c8s2.2 0 (Tm.var 1) (by decide) (by decide)

/-- Alpha-conversion only writes the binder node: every other node is
unchanged, and no allocation happens. -/
theorem alphaConversion_frame :
    ∀ (h : Heap) (A : Nat) (body : Tm) (c : Char) (h1 : Heap),
      alphaConversion h A body c = some h1 →
      h1.next = h.next ∧ ∀ v, v ≠ A → h1.get v = h.get v := by
  intro h A body c h1 hac
  unfold alphaConversion at hac
  by_cases hf : hasFreevarNamed h body c
  · simp [hf] at hac
  · simp [hf] at hac
    refine ⟨by rw [← hac]; rfl, fun v hv => ?_⟩
    rw [← hac]
    simp [Heap.set, Heap.get, hv]

/-- The alpha-conversion prelude of `call` only (possibly) writes the
binder node. -/
theorem callPrelude_frame :
    ∀ (h : Heap) (A : Nat) (body : Tm) (n : Char) (h1 : Heap),
      callPrelude h A body n = some h1 →
      h1.next = h.next ∧ ∀ v, v ≠ A → h1.get v = h.get v := by
  intro h A body n h1 hc
  unfold callPrelude at hc
  by_cases hf : hasFreevarNamed h body n
  · simp only [hf, if_true] at hc
    rcases hnv : lambdaNextVar h body n with _ | c
    · rw [hnv] at hc
      simp at hc
    · rw [hnv] at hc
      exact alphaConversion_frame h A body c h1 hc
  · simp only [hf, if_false, Option.some.injEq, Bool.false_eq_true] at hc
    rw [← hc]
    exact ⟨rfl, fun _ _ => rfl⟩

/-- Releasing only allocates fresh nodes: every previously allocated node
is unchanged, and the allocation counter never decreases. -/
theorem releaseTm_frame :
    ∀ (t : Tm) (h : Heap) (n : Char) (p : Heap × Tm),
      releaseTm h t n = some p →
      h.next ≤ p.1.next ∧ ∀ v, v < h.next → p.1.get v = h.get v := by
  intro t
  induction t with
  | var u =>
    intro h n p hr
    unfold releaseTm at hr
    by_cases hn : (h.get u).name = n
    · simp only [hn, if_true, Option.some.injEq] at hr
      rw [← hr]
      refine ⟨by simp [Heap.alloc], fun v hv => ?_⟩
      have hne : v ≠ h.next := by omega
      simp [Heap.alloc, Heap.get, hne]
    · simp only [hn, if_false, Option.some.injEq] at hr
      rw [← hr]
      exact ⟨Nat.le_refl _, fun _ _ => rfl⟩
  | lam l a b ih =>
    intro h n p hr
    simp [releaseTm] at hr
  | app e1 e2 ih1 ih2 =>
    intro h n p hr
    unfold releaseTm at hr
    split at hr
    · simp at hr
    · rename_i p1 h1
      split at hr
      · simp at hr
      · rename_i p2 h2
        simp only [Option.some.injEq] at hr
        obtain ⟨hle1, hag1⟩ := ih1 h n p1 h1
        obtain ⟨hle2, hag2⟩ := ih2 p1.1 n p2 h2
        rw [← hr]
        refine ⟨Nat.le_trans hle1 hle2, fun v hv => ?_⟩
        rw [hag2 v (Nat.lt_of_lt_of_le hv hle1), hag1 v hv]

/-- C5 counterexample: evaluation is not a pure function leaving the
receiver unchanged — `Lambda(x, Application(x, y)).call(y)` renames the
receiver's binder node in place, so the very same receiver term prints
`(λx.BV(x) FV(y))` before the call and `(λz.BV(z) FV(y))` in the heap the
call leaves behind. -/
theorem c5_counterexample_mutation :
    lamC5.2 = Tm.lam 3 4 (Tm.app (Tm.var 4) (Tm.var 2)) ∧
    reprTm hC5 lamC5.2 = "(λx.BV(x) FV(y))" ∧
    ((callTm hC5 4 (Tm.app (Tm.var 4) (Tm.var 2)) 5).heapOut).map
      (fun h => reprTm h lamC5.2) = some "(λz.BV(z) FV(y))" :=
  ⟨rfl, rfl, rfl⟩

/-- C5 amended: `call` is deterministic but impure — it may rename the
receiver's own binder node in place and allocate fresh nodes; those are its
only heap effects: every previously allocated node other than the binder
node is left exactly as it was. -/
theorem c5_call_frame_amended :
    ∀ (h : Heap) (A : Nat) (body : Tm) (argVid : Nat) (h' : Heap),
      (callTm h A body argVid).heapOut = some h' →
      ∀ v, v < h.next → v ≠ A → h'.get v = h.get v := by
  intro h A body argVid h' hout v hv hvA
  unfold callTm at hout
  split at hout
  · simp [CallResult.heapOut] at hout
  · rename_i h1 hp
    obtain ⟨hnext1, hag1⟩ := callPrelude_frame h A body _ h1 hp
    have hagv : h1.get v = h.get v := hag1 v hvA
    split at hout
    · -- body a variable: inner match on its bound field
      split at hout <;>
        · simp only [CallResult.heapOut, Option.some.injEq] at hout
          rw [← hout]
          exact hagv
    · -- body an application
      split at hout
      · -- release path
        split at hout
        · simp [CallResult.heapOut] at hout
        · rename_i p hr
          simp only [CallResult.heapOut, Option.some.injEq] at hout
          obtain ⟨hle, hag2⟩ := releaseTm_frame _ h1 _ p hr
          rw [← hout]
          rw [hag2 v (by rw [hnext1]; exact hv)]
          exact hagv
      · -- child-replacement path
        split at hout
        · -- operator child a variable: the name test, then the operand child
          split at hout <;>
          · split at hout
            · simp only [CallResult.heapOut, Option.some.injEq] at hout
              rw [← hout]
              exact hagv
            · simp [CallResult.heapOut] at hout
        · simp [CallResult.heapOut] at hout
    · -- body a lambda: implicit None
      simp only [CallResult.heapOut, Option.some.injEq] at hout
      rw [← hout]
      exact hagv

/-- Witness for C5 (amended) at the mutating call
`Lambda(x, Application(x, y)).call(y)`: node 2 (the free `y` occurrence,
allocated before the call and distinct from the binder node 4) is unchanged
in the heap the call leaves behind. -/
theorem c5_call_frame_amended_witness :
    hC5after.get 2 = hC5.get 2 :=
  c5_call_frame_amended hC5 4 (Tm.app (Tm.var 4) (Tm.var 2)) 5 hC5after rfl 2
    (by decide) (by decide)
